import Mathlib

set_option maxHeartbeats 1000000

/-!
Verification of the generation-orchestration layer of the geni-ai travel
planner backend: the Gemini service wrapper (`async_gemini_generate_content`,
`async_generate_image_files` in `services/gemini_service.py`) and the two
orchestration endpoints (`generate_itinerary`, `travel_options` in
`routes/travel.py`).  External collaborators (the Gemini/Perplexity network
calls, `json.loads`, `mimetypes.guess_extension`) are modelled as explicit
outcome values or oracle functions supplied as parameters, so every modelled
function is a total Lean function whose branches mirror the Python source.
-/

namespace Travel

/-- JSON values as produced by Python's `json.loads`: null, booleans, numbers,
strings, arrays, and objects.  Objects are ordered key-value lists, matching
Python dict insertion order.  Numbers are modelled as integers; no modelled
code path inspects fractional values. -/
inductive Json where
  | null
  | bool (b : Bool)
  | num (n : Int)
  | str (s : String)
  | arr (elems : List Json)
  | obj (fields : List (String × Json))

/-- Python truthiness of a JSON-shaped value: `None`, `False`, `0`, the empty
string, the empty list and the empty dict are falsy, everything else truthy. -/
def Json.truthy : Json → Bool
  | .null => false
  | .bool b => b
  | .num n => n != 0
  | .str s => !(s == "")
  | .arr l => !l.isEmpty
  | .obj l => !l.isEmpty

/-- A Python dict holding JSON values, as an insertion-ordered key-value list. -/
abbrev JDict := List (String × Json)

/-- Python `d.get(k)` / `d[k]`: value of the first binding of `k`. -/
def dGet? (k : String) : JDict → Option Json
  | [] => none
  | (k', v) :: rest => if k' = k then some v else dGet? k rest

/-- Python `k in d`. -/
def dHas (k : String) (d : JDict) : Bool := (dGet? k d).isSome

/-- Python `d[k] = v`: replace the binding in place, or append a new one. -/
def dSet (k : String) (v : Json) : JDict → JDict
  | [] => [(k, v)]
  | (k', v') :: rest => if k' = k then (k, v) :: rest else (k', v') :: dSet k v rest

/-- Python `d.setdefault(k, v)`: append the binding only when `k` is absent. -/
def dSetdefault (k : String) (v : Json) (d : JDict) : JDict :=
  if dHas k d then d else d ++ [(k, v)]

/-- Python `del d[k]` for a present key: drop the first binding of `k`. -/
def dDel (k : String) : JDict → JDict
  | [] => []
  | (k', v') :: rest => if k' = k then rest else (k', v') :: dDel k rest

/-- Python `d.pop(k, default)` without the default: the removed value (when
present) together with the remaining dict. -/
def dPop (k : String) (d : JDict) : Option Json × JDict :=
  match dGet? k d with
  | some v => (some v, dDel k d)
  | none => (none, d)

/-- The keys of a dict, in order. -/
def dKeys (d : JDict) : List String := d.map Prod.fst

/-! ### `async_gemini_generate_content` (services/gemini_service.py)

The provider call `async_client.aio.models.generate_content` is an external
collaborator; one call is summarised by a `ProviderOutcome`.  `ok none` is a
falsy response object, `ok (some none)` a truthy response whose `.text` is
`None`, and `ok (some (some s))` a truthy response with text `s` (possibly
empty).  `json.loads` is an oracle `parse : String → Option Json`: `none`
models `JSONDecodeError`. -/

inductive ProviderOutcome where
  | timeout
  | raises
  | ok (response : Option (Option String))
  deriving DecidableEq

/-- Possible returns of `async_gemini_generate_content`: the caller-supplied
`default_response` (fallback), a parsed JSON value, or raw text. -/
inductive GenOut where
  | fallback
  | json (j : Json)
  | text (s : String)

/-- `async_gemini_generate_content`, translated branch by branch from
`services/gemini_service.py` lines 28-91.  `schema` is whether a
`response_schema` was supplied.  `.timeout` is the inner
`asyncio.TimeoutError` handler (cancel the task, return the default, no
retry), `.raises` the outer `except Exception` handler, and the `ok` cases
follow the `if response` / `if response.text` / `json.loads` nesting.  The
function is total: no branch propagates an exception. -/
def async_gemini_generate_content (schema : Bool)
    (parse : String → Option Json) (o : ProviderOutcome) : GenOut :=
  match o with
  | .timeout => .fallback
  | .raises => .fallback
  | .ok response =>
    match response with
    | none => .fallback
    | some text? =>
      if schema then
        match text? with
        | some s =>
          if !(s == "") then
            match parse s with
            | some j => .json j
            | none => .fallback
          else .fallback
        | none => .fallback
      else
        match text? with
        | some s => if !(s == "") then .text s else .fallback
        | none => .fallback

/-- The text carried by a provider outcome, when the response was truthy and
its `.text` field was a string (possibly empty). -/
def returnedText : ProviderOutcome → Option String
  | .ok (some (some s)) => some s
  | _ => none

/-- The behaviour claimed by the specification for `async_gemini_generate_content`,
written as its decision sequence: fallback exactly on timeout, on a provider
exception, on empty-or-missing text, or on a JSON parse failure when a schema
was supplied; otherwise the parsed JSON value (schema supplied) or the raw
text (no schema). -/
def generateContentSpec (schema : Bool)
    (parse : String → Option Json) (o : ProviderOutcome) : GenOut :=
  if o = .timeout ∨ o = .raises then .fallback
  else
    match returnedText o with
    | none => .fallback
    | some s =>
      if s = "" then .fallback
      else if schema then
        match parse s with
        | some j => .json j
        | none => .fallback
      else .text s

/-! ### `async_generate_image_files` (services/gemini_service.py)

Each per-prompt provider call is summarised by an `ImgOutcome`: `.raises` for
`except Exception`, and `.ok parts` for a response whose first candidate's
content parts are `parts` (the falsy-response / no-candidates / no-content /
no-parts paths are all `.ok []`, which the source skips identically).  A part
either carries no truthy `inline_data.data`, or carries data together with its
`mime_type` (possibly `None`).  The provider and `mimetypes.guess_extension`
are oracles in the environment. -/

inductive ImgPart where
  | noData
  | withData (mime : Option String)

inductive ImgOutcome where
  | raises
  | ok (parts : List ImgPart)

/-- External collaborators of `async_generate_image_files`: the image provider
(as a function of the prompt text) and `mimetypes.guess_extension`. -/
structure ImgEnv where
  outcome : String → ImgOutcome
  guessExt : String → Option String

/-- `os.path.join` for the paths built here: the right component when the left
is empty or the right is absolute, otherwise the two joined with `/`. -/
def pyJoin (a b : String) : String :=
  if b.startsWith "/" then b
  else if a = "" then b
  else if a.endsWith "/" then a ++ b else a ++ "/" ++ b

/-- The part-scanning loop of `_gen_for_index`: walk the candidate's parts in
order; the first part with truthy inline data yields the written file's path
(`break` after one image), using `guess_extension(mime) or ".bin"`; a `None`
mime type makes `guess_extension` raise, which the surrounding
`except Exception` turns into `None`.  If no part carries data, the result
stays `None`. -/
def findImagePart (ge : String → Option String) (outputDir fnameStem : String) :
    List ImgPart → Nat → Option String
  | [], _ => none
  | .noData :: rest, partIndex => findImagePart ge outputDir fnameStem rest (partIndex + 1)
  | .withData mime :: _, partIndex =>
    match mime with
    | none => none
    | some m =>
      let ext := (ge m).getD ".bin"
      some (pyJoin outputDir (fnameStem ++ "_" ++ toString partIndex ++ ext))

/-- `_gen_for_index` from `async_generate_image_files`: the task for prompt
index `i`.  Returns the written file path, or `None` when the provider raised
or produced no inline binary payload. -/
def genForIndex (env : ImgEnv) (outputDir baseFileName : String)
    (i : Nat) (prompt : String) : Option String :=
  match env.outcome prompt with
  | .raises => none
  | .ok parts => findImagePart env.guessExt outputDir (baseFileName ++ "_" ++ toString i) parts 0

/-- `async_generate_image_files` (services/gemini_service.py lines 94-151):
one task per prompt, `asyncio.gather` in prompt order, then the truthy filter
`[r for r in results if r]` dropping `None` and empty strings. -/
def async_generate_image_files (env : ImgEnv) (prompts : List String)
    (outputDir baseFileName : String) : List String :=
  let results := prompts.enum.map (fun ip => genForIndex env outputDir baseFileName ip.1 ip.2)
  (results.filterMap id).filter (fun s => !(s == ""))

/-- The result assembly claimed by the specification: walk the indexed prompts
in their original order, keep the path of every prompt whose task succeeded,
and skip failed prompts without any placeholder. -/
def successfulPaths (env : ImgEnv) (outputDir baseFileName : String) :
    List (Nat × String) → List String
  | [] => []
  | ip :: rest =>
    match genForIndex env outputDir baseFileName ip.1 ip.2 with
    | some path => path :: successfulPaths env outputDir baseFileName rest
    | none => successfulPaths env outputDir baseFileName rest

/-! ### The `/travel/options` flow (routes/travel.py lines 233-344)

The flow is modelled from the point where the assistant-message text has been
extracted from the Perplexity response.  `json.loads` is again an oracle
`parse`; `Except Unit` models an exception reaching the endpoint's
`except Exception` handler (HTTP 500). -/

def lbrace : Char := Char.ofNat 123

def rbrace : Char := Char.ofNat 125

/-- Index of the first occurrence of a character, if any. -/
def firstIdx? (c : Char) : List Char → Option Nat
  | [] => none
  | x :: rest => if x = c then some 0 else (firstIdx? c rest).map (· + 1)

/-- Index of the last occurrence of a character, if any. -/
def lastIdx? (c : Char) (l : List Char) : Option Nat :=
  match firstIdx? c l.reverse with
  | some i => some (l.length - 1 - i)
  | none => none

/-- Python `text.find(c)`: first index, or -1 when absent. -/
def pyFind (s : String) (c : Char) : Int :=
  match firstIdx? c s.data with
  | some i => (i : Int)
  | none => -1

/-- Python `text.rfind(c)`: last index, or -1 when absent. -/
def pyRfind (s : String) (c : Char) : Int :=
  match lastIdx? c s.data with
  | some i => (i : Int)
  | none => -1

/-- Python `text[a:b]` for `0 ≤ a ≤ b`. -/
def pySlice (s : String) (a b : Nat) : String :=
  String.mk ((s.data.drop a).take (b - a))

/-- The JSON-extraction step of `travel_options` (routes/travel.py lines
282-306): when the text is truthy, try `json.loads` directly; on decode
failure compute `start_idx = text.find(lbrace)` and
`end_idx = text.rfind(rbrace) + 1` and, when `start_idx != -1` and
`end_idx > start_idx`, try `json.loads(text[start_idx:end_idx])`; every other
path leaves `data = None`.  A parse that succeeds with JSON `null` sets
`data = None` as well — the flow's later `if data is None` check cannot tell
that apart from a failed parse — without triggering the brace heuristic
(no `JSONDecodeError` was raised). -/
def extract_data (parse : String → Option Json) (text : String) : Option Json :=
  if !(text == "") then
    match parse text with
    | some .null => none
    | some j => some j
    | none =>
      if pyFind text lbrace ≠ -1 ∧ pyRfind text rbrace + 1 > pyFind text lbrace then
        match parse (pySlice text (pyFind text lbrace).toNat
            (pyRfind text rbrace + 1).toNat) with
        | some .null => none
        | r => r
      else none
  else none

/-- The all-empty-modes `travel_options` mapping used by the fallback and the
`setdefault` backfill (routes/travel.py lines 310-339). -/
def defaultTravelOptions : Json :=
  .obj [("train", .arr []), ("bus", .arr []), ("car_taxi", .arr []),
        ("car_transport", .arr []), ("part_load_transport", .arr []),
        ("flight", .arr [])]

/-- The fallback minimal structure installed when `data is None`
(routes/travel.py lines 295-306 of the flow). -/
def defaultData (origin destination : String) : Json :=
  .obj [("origin", .str origin), ("destination", .str destination),
        ("travel_options", defaultTravelOptions)]

/-- The three `data.setdefault(...)` calls (routes/travel.py lines 309-318).
On a non-dict value `setdefault` raises `AttributeError`, which reaches the
endpoint's generic handler. -/
def ensure_fields (origin destination : String) : Json → Except Unit JDict
  | .obj d =>
    .ok (dSetdefault "travel_options" defaultTravelOptions
      (dSetdefault "destination" (.str destination)
        (dSetdefault "origin" (.str origin) d)))
  | _ => .error ()

/-- One entry of the converted `modes` list. -/
def mkMode (kv : String × Json) : Json :=
  .obj [("mode", .str kv.1), ("options", kv.2)]

/-- The reshape step (routes/travel.py lines 320-335): when `"travel_options"`
is a key of `data`, iterate its mapping in insertion order keeping only truthy
option lists, store the result under `"modes"`, and delete `"travel_options"`.
Calling `.items()` on a non-dict value raises, reaching the generic handler. -/
def reshape_modes (d : JDict) : Except Unit JDict :=
  if dHas "travel_options" d then
    match dGet? "travel_options" d with
    | some (.obj tv) =>
      let modesList := (tv.filter (fun kv => kv.2.truthy)).map mkMode
      .ok (dDel "travel_options" (dSet "modes" (.arr modesList) d))
    | _ => .error ()
  else .ok d

/-- The rename step (routes/travel.py lines 337-339):
`data["origin_city"] = data.pop("origin", payload.origin_city)` and the same
for `destination`. -/
def rename_fields (origin destination : String) (d : JDict) : JDict :=
  let p1 := dPop "origin" d
  let d1 := dSet "origin_city" (p1.1.getD (.str origin)) p1.2
  let p2 := dPop "destination" d1
  dSet "destination_city" (p2.1.getD (.str destination)) p2.2

/-- The whole normalization pipeline of `travel_options`, from the provider
text to the keyword dict handed to `TravelOptionsResponse(**data)`. -/
def travel_options_data (parse : String → Option Json)
    (origin destination text : String) : Except Unit JDict := do
  let data := (extract_data parse text).getD (defaultData origin destination)
  let d ← ensure_fields origin destination data
  let d ← reshape_modes d
  return rename_fields origin destination d

/-! ### Pydantic validation of `TravelOptionsResponse` (models/schemas.py)

The four model classes are translated from `models/schemas.py`; the
keyword-argument validation itself is pydantic's (an external library):
required fields must be present with the declared type, `Optional[str]`
fields accept a missing key, `null` or a string, `List[...]` fields with a
`default_factory` accept a missing key as the empty list, and extra keys are
ignored. -/

structure TravelSource where
  title : Option String
  url : Option String
  date : Option String
  deriving DecidableEq

structure TravelOption where
  route_name : String
  carriers : List String
  duration : Option String
  price : Option String
  frequency : Option String
  airports_or_stations : List String
  transfers : Option String
  booking_tips : Option String
  sources : List TravelSource
  deriving DecidableEq

structure TravelMode where
  mode : String
  options : List TravelOption
  deriving DecidableEq

structure TravelOptionsResponse where
  origin_city : String
  destination_city : String
  modes : List TravelMode
  deriving DecidableEq

/-- Effectful map over `Option`, unfolded for easy case analysis. -/
def mapO {α β : Type} (f : α → Option β) : List α → Option (List β)
  | [] => some []
  | a :: l =>
    match f a, mapO f l with
    | some b, some bs => some (b :: bs)
    | _, _ => none

def vStr : Json → Option String
  | .str s => some s
  | _ => none

/-- An `Optional[str] = None` field taken from key `k`. -/
def vOptStrKey (d : JDict) (k : String) : Option (Option String) :=
  match dGet? k d with
  | none => some none
  | some .null => some none
  | some (.str s) => some (some s)
  | some _ => none

/-- A `List[str] = []` field taken from key `k`. -/
def vStrListKey (d : JDict) (k : String) : Option (List String) :=
  match dGet? k d with
  | none => some []
  | some (.arr l) => mapO vStr l
  | some _ => none

def vSource : Json → Option TravelSource
  | .obj d => do
    let t ← vOptStrKey d "title"
    let u ← vOptStrKey d "url"
    let dt ← vOptStrKey d "date"
    return ⟨t, u, dt⟩
  | _ => none

def vOption : Json → Option TravelOption
  | .obj d => do
    let rn ← (dGet? "route_name" d).bind vStr
    let ca ← vStrListKey d "carriers"
    let du ← vOptStrKey d "duration"
    let pr ← vOptStrKey d "price"
    let fr ← vOptStrKey d "frequency"
    let ap ← vStrListKey d "airports_or_stations"
    let tr ← vOptStrKey d "transfers"
    let bt ← vOptStrKey d "booking_tips"
    let so ← match dGet? "sources" d with
      | none => some []
      | some (.arr l) => mapO vSource l
      | some _ => none
    return ⟨rn, ca, du, pr, fr, ap, tr, bt, so⟩
  | _ => none

def vMode : Json → Option TravelMode
  | .obj d => do
    let m ← (dGet? "mode" d).bind vStr
    let os ← match dGet? "options" d with
      | some (.arr l) => mapO vOption l
      | _ => none
    return ⟨m, os⟩
  | _ => none

def validateTravelOptionsResponse (d : JDict) : Option TravelOptionsResponse := do
  let oc ← (dGet? "origin_city" d).bind vStr
  let dc ← (dGet? "destination_city" d).bind vStr
  let ms ← match dGet? "modes" d with
    | some (.arr l) => mapO vMode l
    | _ => none
  return ⟨oc, dc, ms⟩

/-- The `/travel/options` endpoint from the provider text on:
normalization followed by `TravelOptionsResponse(**data)`, with any raised
exception reaching the generic `except Exception` handler (HTTP 500),
modelled as `.error ()`. -/
def travel_options (parse : String → Option Json)
    (origin destination text : String) : Except Unit TravelOptionsResponse := do
  let d ← travel_options_data parse origin destination text
  match validateTravelOptionsResponse d with
  | some r => .ok r
  | none => .error ()

/-! ### The `/travel/itinerary` flow (routes/travel.py lines 110-230)

`generate_itinerary` issues one schema-constrained Gemini call with the
request-echoing `default_response`, then walks `data["days"]` attaching
`image_urls` to every entity, then returns `ItineraryResponse(**data)`.
The static root directory (`utils/files.py`, not part of the sources) is an
abstract `staticRoot` parameter. -/

structure ItineraryRequest where
  home_city : String
  destination_city : String
  num_days : Int
  interests : List String

/-- The `default_response` built in `generate_itinerary`
(routes/travel.py lines 188-194). -/
def defaultItinerary (p : ItineraryRequest) : Json :=
  .obj [("home_city", .str p.home_city),
        ("destination_city", .str p.destination_city),
        ("num_days", .num p.num_days), ("days", .arr []),
        ("overall_tips", .arr [])]

/-- The sanitized slug used for directories and file-name stems:
`s.lower().replace(" ", "-")`. -/
def slug (s : String) : String := s.toLower.replace " " "-"

/-- Modelled from the spec: `os.path.relpath(path, root)` as used for
generated image files, which the flow always writes under the static root;
it strips the leading `root ++ "/"` from such paths. -/
def relpathUnder (root p : String) : String :=
  if (root ++ "/").isPrefixOf p then p.drop (root ++ "/").length else p

/-- Effectful map over `Except Unit`, unfolded for easy case analysis. -/
def mapE {α β : Type} (f : α → Except Unit β) : List α → Except Unit (List β)
  | [] => .ok []
  | a :: l =>
    match f a with
    | .error _ => .error ()
    | .ok b =>
      match mapE f l with
      | .error _ => .error ()
      | .ok bs => .ok (b :: bs)

/-- The per-entity body of the image loop (routes/travel.py lines 209-228):
take `entity.get("photo_prompts", [])[:2]`; when empty set
`entity["image_urls"] = []` without calling the generator; otherwise call
`async_generate_image_files` with the entity-name slug and store the served
URLs `"/static/" ++ relpath(file, static_root)`.  A non-list `photo_prompts`
value or a non-string prompt or entity name is modelled as a fault reaching
the generic handler (Python raises while slicing or while building the
request parts; the modelled claims exclude these shapes via
well-formedness). -/
def entityImageStage (env : ImgEnv) (staticRoot outputDir : String) :
    Json → Except Unit Json
  | .obj e =>
    match (dGet? "photo_prompts" e).getD (.arr []) with
    | .arr l =>
      match l.take 2 with
      | [] => .ok (.obj (dSet "image_urls" (.arr []) e))
      | p :: ps =>
        match mapO vStr (p :: ps) with
        | none => .error ()
        | some prompts =>
          match (dGet? "name" e).getD (.str "entity") with
          | .str name =>
            let files := async_generate_image_files env prompts outputDir (slug name)
            let urls := files.map (fun fp => "/static" ++ "/" ++ relpathUnder staticRoot fp)
            .ok (.obj (dSet "image_urls" (.arr (urls.map .str)) e))
          | _ => .error ()
    | _ => .error ()
  | _ => .error ()

/-- The per-day body of the image loop: `day.get("entities", [])` is walked
and each entity dict is updated in place. -/
def dayImageStage (env : ImgEnv) (staticRoot outputDir : String) :
    Json → Except Unit Json
  | .obj d =>
    match dGet? "entities" d with
    | none => .ok (.obj d)
    | some (.arr es) => do
      let es' ← mapE (entityImageStage env staticRoot outputDir) es
      return .obj (dSet "entities" (.arr es') d)
    | some _ => .error ()
  | _ => .error ()

/-- The whole image fan-out stage of `generate_itinerary`
(routes/travel.py lines 206-228), walking `data.get("days", [])`. -/
def attachImages (env : ImgEnv) (staticRoot destSlug : String) :
    Json → Except Unit Json
  | .obj d =>
    let outputDir := pyJoin staticRoot ("itineraries/" ++ destSlug)
    match dGet? "days" d with
    | none => .ok (.obj d)
    | some (.arr ds) => do
      let ds' ← mapE (dayImageStage env staticRoot outputDir) ds
      return .obj (dSet "days" (.arr ds') d)
    | some _ => .error ()
  | _ => .error ()

/-! Pydantic validation of `ItineraryResponse` (models/schemas.py), under the
same conventions as `TravelOptionsResponse` above. -/

structure ItineraryPlace where
  name : String
  description : String
  deriving DecidableEq

structure ItineraryEntity where
  name : String
  speciality : String
  places_to_visit : List ItineraryPlace
  photo_prompts : List String
  image_urls : List String
  deriving DecidableEq

structure ItineraryDay where
  day : Int
  summary : String
  entities : List ItineraryEntity
  route_info : Option String
  deriving DecidableEq

structure ItineraryResponse where
  home_city : String
  destination_city : String
  num_days : Int
  days : List ItineraryDay
  overall_tips : List String
  deriving DecidableEq

def vInt : Json → Option Int
  | .num n => some n
  | _ => none

def vPlace : Json → Option ItineraryPlace
  | .obj d => do
    let n ← (dGet? "name" d).bind vStr
    let ds ← (dGet? "description" d).bind vStr
    return ⟨n, ds⟩
  | _ => none

def vEntity : Json → Option ItineraryEntity
  | .obj d => do
    let n ← (dGet? "name" d).bind vStr
    let sp ← (dGet? "speciality" d).bind vStr
    let pv ← match dGet? "places_to_visit" d with
      | some (.arr l) => mapO vPlace l
      | _ => none
    let pp ← vStrListKey d "photo_prompts"
    let iu ← vStrListKey d "image_urls"
    return ⟨n, sp, pv, pp, iu⟩
  | _ => none

def vDay : Json → Option ItineraryDay
  | .obj d => do
    let dn ← (dGet? "day" d).bind vInt
    let su ← (dGet? "summary" d).bind vStr
    let es ← match dGet? "entities" d with
      | some (.arr l) => mapO vEntity l
      | _ => none
    let ri ← vOptStrKey d "route_info"
    return ⟨dn, su, es, ri⟩
  | _ => none

def validateItineraryResponse (d : JDict) : Option ItineraryResponse := do
  let hc ← (dGet? "home_city" d).bind vStr
  let dc ← (dGet? "destination_city" d).bind vStr
  let nd ← (dGet? "num_days" d).bind vInt
  let ds ← match dGet? "days" d with
    | some (.arr l) => mapO vDay l
    | _ => none
  let ot ← vStrListKey d "overall_tips"
  return ⟨hc, dc, nd, ds, ot⟩

/-- The `/travel/itinerary` endpoint (routes/travel.py lines 110-230): one
schema-constrained text generation with the request-echoing default as
fallback, the image fan-out stage, then `ItineraryResponse(**data)`; any
exception reaches the generic handler, modelled as `.error ()`. -/
def generate_itinerary (parse : String → Option Json) (o : ProviderOutcome)
    (env : ImgEnv) (staticRoot : String) (p : ItineraryRequest) :
    Except Unit ItineraryResponse := do
  let data :=
    match async_gemini_generate_content true parse o with
    | .fallback => defaultItinerary p
    | .json j => j
    | .text s => .str s
  let data' ← attachImages env staticRoot (slug p.destination_city) data
  match data' with
  | .obj d =>
    match validateItineraryResponse d with
    | some r => .ok r
    | none => .error ()
  | _ => .error ()

/-! Well-formedness of provider itinerary data, as Boolean checkers: the
shapes the schema-constrained provider is expected to return, under which the
image stage cannot fault. -/

def isStr : Json → Bool
  | .str _ => true
  | _ => false

def wfEntityJson : Json → Bool
  | .obj e =>
    (match dGet? "photo_prompts" e with
     | none => true
     | some (.arr l) => l.all isStr
     | some _ => false) &&
    (match dGet? "name" e with
     | none => true
     | some (.str _) => true
     | some _ => false)
  | _ => false

def wfDayJson : Json → Bool
  | .obj d =>
    match dGet? "entities" d with
    | none => true
    | some (.arr es) => es.all wfEntityJson
    | some _ => false
  | _ => false

def wfItineraryJson : Json → Bool
  | .obj d =>
    match dGet? "days" d with
    | none => true
    | some (.arr ds) => ds.all wfDayJson
    | some _ => false
  | _ => false

/-! ### Claim C1 -/

/-- C1: for every schema choice, JSON oracle and provider outcome,
`async_gemini_generate_content` returns the fallback exactly when the call
times out (the task is cancelled, no retry), when the provider raises, when a
schema was supplied and the text fails to parse as JSON, or when the returned
text is empty or missing; otherwise it returns the parsed JSON value (schema
supplied) or the raw text (no schema).  Both sides are total functions, so no
exception ever propagates to the caller. -/
theorem c1_generate_content_fallback_exactly (schema : Bool)
    (parse : String → Option Json) (o : ProviderOutcome) :
    async_gemini_generate_content schema parse o = generateContentSpec schema parse o := by
  cases o with
  | timeout => rfl
  | raises => rfl
  | ok response =>
    cases response with
    | none => cases schema <;> rfl
    | some text? =>
      cases text? with
      | none => cases schema <;> rfl
      | some s =>
        by_cases hs : s = ""
        · subst hs; cases schema <;> rfl
        · have hb : (s == "") = false := beq_eq_false_iff_ne.mpr hs
          cases schema <;>
            simp [async_gemini_generate_content, generateContentSpec, returnedText, hb, hs]

/-! ### Claim C2 -/

theorem ne_empty_of_length_pos {s : String} (h : 0 < s.length) : s ≠ "" := by
  intro he
  rw [he] at h
  exact absurd h (by decide)

theorem pyJoin_ne_empty {a b : String} (hb : b ≠ "") : pyJoin a b ≠ "" := by
  have hlen : 0 < b.length := by
    rcases Nat.eq_zero_or_pos b.length with h0 | h
    · exact absurd (String.ext (List.length_eq_zero.mp h0)) hb
    · exact h
  unfold pyJoin
  split
  · exact hb
  · split
    · exact hb
    · split
      · exact ne_empty_of_length_pos (by rw [String.length_append]; omega)
      · exact ne_empty_of_length_pos (by rw [String.length_append]; omega)

theorem findImagePart_ne_some_empty (ge : String → Option String)
    (outputDir stem : String) :
    ∀ (parts : List ImgPart) (partIndex : Nat),
      findImagePart ge outputDir stem parts partIndex ≠ some "" := by
  intro parts
  induction parts with
  | nil => intro _ h; exact Option.noConfusion h
  | cons part rest ih =>
    intro partIndex
    cases part with
    | noData => exact ih (partIndex + 1)
    | withData mime =>
      cases mime with
      | none => intro h; exact Option.noConfusion h
      | some m =>
        intro h
        have hpath := Option.some.inj h
        have hname : stem ++ "_" ++ toString partIndex ++ ((ge m).getD ".bin") ≠ "" := by
          apply ne_empty_of_length_pos
          rw [String.length_append, String.length_append, String.length_append]
          have h1 : ("_" : String).length = 1 := rfl

          omega
        exact pyJoin_ne_empty hname hpath

theorem genForIndex_ne_some_empty (env : ImgEnv) (outputDir baseFileName : String)
    (i : Nat) (prompt : String) :
    genForIndex env outputDir baseFileName i prompt ≠ some "" := by
  unfold genForIndex
  cases env.outcome prompt with
  | raises => intro h; exact Option.noConfusion h
  | ok parts => exact findImagePart_ne_some_empty env.guessExt outputDir _ parts 0

theorem gathered_filter_eq_successfulPaths (env : ImgEnv)
    (outputDir baseFileName : String) :
    ∀ l : List (Nat × String),
      (l.filterMap (fun ip => genForIndex env outputDir baseFileName ip.1 ip.2)).filter
          (fun s => !(s == ""))
        = successfulPaths env outputDir baseFileName l := by
  intro l
  induction l with
  | nil => rfl
  | cons ip rest ih =>
    cases h : genForIndex env outputDir baseFileName ip.1 ip.2 with
    | none => simp [successfulPaths, h, ih]
    | some path =>
      have hne : path ≠ "" := by
        intro he
        exact genForIndex_ne_some_empty env outputDir baseFileName ip.1 ip.2 (he ▸ h)
      have hb : (path == "") = false := beq_eq_false_iff_ne.mpr hne
      simp [successfulPaths, h, hb, ih]

theorem successfulPaths_length_le (env : ImgEnv) (outputDir baseFileName : String) :
    ∀ l : List (Nat × String),
      (successfulPaths env outputDir baseFileName l).length ≤ l.length := by
  intro l
  induction l with
  | nil => exact Nat.le_refl 0
  | cons ip rest ih =>
    unfold successfulPaths
    cases genForIndex env outputDir baseFileName ip.1 ip.2 with
    | none => exact Nat.le_succ_of_le ih
    | some path => exact Nat.succ_le_succ ih

theorem successfulPaths_eq_nil_of_all_none (env : ImgEnv)
    (outputDir baseFileName : String) :
    ∀ l : List (Nat × String),
      (∀ ip ∈ l, genForIndex env outputDir baseFileName ip.1 ip.2 = none) →
      successfulPaths env outputDir baseFileName l = [] := by
  intro l
  induction l with
  | nil => intro _; rfl
  | cons ip rest ih =>
    intro h
    unfold successfulPaths
    rw [h ip (List.mem_cons_self ip rest)]
    exact ih fun x hx => h x (List.mem_cons_of_mem ip hx)

/-- C2: `async_generate_image_files` gathers every per-prompt task (the model
evaluates each task exactly once, none cancelled) and returns exactly the
paths of the prompts whose generation succeeded, in the relative order of the
originating prompts, with failed prompts omitted without a placeholder; the
result never exceeds the number of prompts, and a batch in which every prompt
fails returns the empty list as an ordinary value. -/
theorem c2_image_fanout_successful_paths (env : ImgEnv) (prompts : List String)
    (outputDir baseFileName : String) :
    async_generate_image_files env prompts outputDir baseFileName
        = successfulPaths env outputDir baseFileName prompts.enum
    ∧ (async_generate_image_files env prompts outputDir baseFileName).length
        ≤ prompts.length
    ∧ (prompts.enum.all
          (fun ip => (genForIndex env outputDir baseFileName ip.1 ip.2).isNone) = true →
        async_generate_image_files env prompts outputDir baseFileName = []) := by
  have heq : async_generate_image_files env prompts outputDir baseFileName
      = successfulPaths env outputDir baseFileName prompts.enum := by
    unfold async_generate_image_files
    dsimp only
    rw [List.filterMap_map]
    exact gathered_filter_eq_successfulPaths env outputDir baseFileName prompts.enum
  refine ⟨heq, ?_, ?_⟩
  · rw [heq]
    calc (successfulPaths env outputDir baseFileName prompts.enum).length
        ≤ prompts.enum.length := successfulPaths_length_le env outputDir baseFileName _
      _ = prompts.length := List.enum_length
  · intro hall
    rw [heq]
    apply successfulPaths_eq_nil_of_all_none
    intro ip hip
    have := List.all_eq_true.mp hall ip hip
    exact Option.isNone_iff_eq_none.mp (by simpa using this)

/-- An image environment whose provider call always raises, for the C2
witness. -/
def allFailEnv : ImgEnv := ⟨fun _ => .raises, fun _ => none⟩

/-- Witness for C2 at a concrete two-prompt batch in which every per-prompt
call raises: the hypothesis of the all-failed conjunct holds and the batch
returns the empty list. -/
theorem c2_image_fanout_successful_paths_witness :
    ((["sunset over harbor", "old town square"] : List String).enum.all
        (fun ip =>
          (genForIndex allFailEnv "static/itineraries/kyoto" "temple" ip.1 ip.2).isNone)
        = true)
    ∧ async_generate_image_files allFailEnv ["sunset over harbor", "old town square"]
        "static/itineraries/kyoto" "temple" = [] :=
  ⟨by decide,
    (c2_image_fanout_successful_paths allFailEnv ["sunset over harbor", "old town square"]
      "static/itineraries/kyoto" "temple").2.2 (by decide)⟩

/-! ### Claim C3 -/

/-- The extraction behaviour claimed by the specification for the
travel-options flow: attempt a direct JSON parse; on failure locate the first
opening brace and the last closing brace and parse the inclusive substring
between them; when that also fails, when no such brace pair exists, or when
the text is empty, use the default structure with the request's
origin/destination and the six all-empty mode lists.  The specification does
not mention a parse that yields JSON `null`; the code treats it like an
absent value, so the spec function defaults there too. -/
def extractionSpec (parse : String → Option Json)
    (origin destination text : String) : Json :=
  if text = "" then defaultData origin destination
  else
    match parse text with
    | some .null => defaultData origin destination
    | some j => j
    | none =>
      match firstIdx? lbrace text.data, lastIdx? rbrace text.data with
      | some s, some e =>
        if s ≤ e then
          match parse (pySlice text s (e + 1)) with
          | some .null => defaultData origin destination
          | some j => j
          | none => defaultData origin destination
        else defaultData origin destination
      | some _, none => defaultData origin destination
      | none, _ => defaultData origin destination

theorem firstIdx?_lt_length {c : Char} :
    ∀ {l : List Char} {i : Nat}, firstIdx? c l = some i → i < l.length := by
  intro l
  induction l with
  | nil => intro i h; exact Option.noConfusion h
  | cons x rest ih =>
    intro i h
    unfold firstIdx? at h
    by_cases hx : x = c
    · rw [if_pos hx] at h
      cases h
      exact Nat.succ_pos _
    · rw [if_neg hx] at h
      cases hr : firstIdx? c rest with
      | none => rw [hr] at h; exact Option.noConfusion h
      | some ir =>
        rw [hr] at h
        cases h
        exact Nat.succ_lt_succ (ih hr)

theorem firstIdx?_append_left {c : Char} :
    ∀ {l : List Char} {i : Nat} (r : List Char),
      firstIdx? c l = some i → firstIdx? c (l ++ r) = some i := by
  intro l
  induction l with
  | nil => intro i r h; exact Option.noConfusion h
  | cons x rest ih =>
    intro i r h
    rw [List.cons_append]
    simp only [firstIdx?] at h ⊢
    by_cases hx : x = c
    · rw [if_pos hx] at h ⊢; exact h
    · rw [if_neg hx] at h ⊢
      cases hr : firstIdx? c rest with
      | none => rw [hr] at h; exact Option.noConfusion h
      | some ir =>
        rw [hr] at h
        rw [ih r hr]
        exact h

theorem firstIdx?_append_of_none {c : Char} :
    ∀ {l : List Char} (r : List Char),
      firstIdx? c l = none →
      firstIdx? c (l ++ r) = (firstIdx? c r).map (l.length + ·) := by
  intro l
  induction l with
  | nil =>
    intro r _
    simp only [List.nil_append, List.length_nil]
    cases firstIdx? c r with
    | none => rfl
    | some i => simp
  | cons x rest ih =>
    intro r h
    rw [List.cons_append]
    simp only [firstIdx?] at h ⊢
    by_cases hx : x = c
    · rw [if_pos hx] at h; exact Option.noConfusion h
    · rw [if_neg hx] at h ⊢
      have hrest : firstIdx? c rest = none := by
        cases hr : firstIdx? c rest with
        | none => rfl
        | some i => rw [hr] at h; simp at h
      rw [ih r hrest]
      cases firstIdx? c r with
      | none => rfl
      | some i =>
        show some (rest.length + i + 1) = some ((x :: rest).length + i)
        rw [List.length_cons]
        congr 1
        omega

theorem firstIdx?_eq_none_iff {c : Char} :
    ∀ {l : List Char}, firstIdx? c l = none ↔ ∀ x ∈ l, x ≠ c := by
  intro l
  induction l with
  | nil => simp [firstIdx?]
  | cons x rest ih =>
    simp only [firstIdx?]
    by_cases hx : x = c
    · rw [if_pos hx]
      constructor
      · intro h; exact Option.noConfusion h
      · intro h; exact absurd hx (h x (List.mem_cons_self x rest))
    · rw [if_neg hx]
      constructor
      · intro h y hy
        rcases List.mem_cons.mp hy with rfl | hy'
        · exact hx
        · have hrest : firstIdx? c rest = none := by
            cases hr : firstIdx? c rest with
            | none => rfl
            | some i => rw [hr] at h; simp at h
          exact ih.mp hrest y hy'
      · intro h
        rw [ih.mpr fun y hy => h y (List.mem_cons_of_mem x hy)]
        rfl

theorem lastIdx?_append_right {c : Char} {l : List Char} {i : Nat} (q : List Char)
    (hq : ∀ x ∈ q, x ≠ c) (h : lastIdx? c l = some i) :
    lastIdx? c (l ++ q) = some i := by
  unfold lastIdx? at h ⊢
  cases hr : firstIdx? c l.reverse with
  | none => rw [hr] at h; exact Option.noConfusion h
  | some ir =>
    rw [hr] at h
    have hi : i = l.length - 1 - ir := by cases h; rfl
    have hqrev : firstIdx? c q.reverse = none :=
      firstIdx?_eq_none_iff.mpr fun x hx => hq x (List.mem_reverse.mp hx)
    have hlen := firstIdx?_lt_length hr
    rw [List.length_reverse] at hlen
    rw [List.reverse_append, firstIdx?_append_of_none l.reverse hqrev, hr]
    show some ((l ++ q).length - 1 - (q.reverse.length + ir)) = some i
    rw [hi, List.length_append, List.length_reverse]
    congr 1
    omega

theorem lastIdx?_append_left {c : Char} {l : List Char} {i : Nat} (p : List Char)
    (h : lastIdx? c l = some i) :
    lastIdx? c (p ++ l) = some (p.length + i) := by
  unfold lastIdx? at h ⊢
  cases hr : firstIdx? c l.reverse with
  | none => rw [hr] at h; exact Option.noConfusion h
  | some ir =>
    rw [hr] at h
    have hi : i = l.length - 1 - ir := by cases h; rfl
    have hlen := firstIdx?_lt_length hr
    rw [List.length_reverse] at hlen
    rw [List.reverse_append, firstIdx?_append_left p.reverse hr]
    show some ((p ++ l).length - 1 - ir) = some (p.length + i)
    rw [hi, List.length_append]
    congr 1
    omega

theorem lastIdx?_of_getLast {c : Char} {l : List Char} (h : l.getLast? = some c) :
    lastIdx? c l = some (l.length - 1) := by
  have hrev : l.reverse.head? = some c := by rw [List.head?_reverse]; exact h
  have key : firstIdx? c l.reverse = some 0 := by
    cases hl : l.reverse with
    | nil => rw [hl] at hrev; exact Option.noConfusion hrev
    | cons x rest =>
      rw [hl] at hrev
      have hx : x = c := by
        rw [List.head?_cons] at hrev
        exact Option.some.inj hrev
      simp [firstIdx?, hx]
  unfold lastIdx?
  rw [key]
  show some (l.length - 1 - 0) = some (l.length - 1)
  rw [Nat.sub_zero]

/-- Whether a JSON value is `null`, i.e. Python `None`. -/
def isNull : Json → Bool
  | .null => true
  | _ => false

/-- C3: for every JSON oracle and request, the extraction-and-default stage of
the travel-options flow behaves as specified: direct parse first, then the
inclusive first-left-brace/last-right-brace substring, then the default
structure (on double failure, absent braces, or empty text, and likewise for
a parse that yields JSON null, which Python cannot tell apart from the
failure sentinel); and in particular a parseable non-null object surrounded
by brace-free prose is extracted and parsed correctly. -/
theorem c3_normalization_extraction (parse : String → Option Json)
    (origin destination : String) :
    (∀ text, (extract_data parse text).getD (defaultData origin destination)
        = extractionSpec parse origin destination text)
    ∧ (∀ (p m q : List Char) (j : Json),
        isNull j = false →
        p.all (fun x => !(x == lbrace)) = true →
        q.all (fun x => !(x == rbrace)) = true →
        m.head? = some lbrace →
        m.getLast? = some rbrace →
        parse (String.mk (p ++ m ++ q)) = none →
        parse (String.mk m) = some j →
        (extract_data parse (String.mk (p ++ m ++ q))).getD
            (defaultData origin destination) = j) := by
  have main : ∀ text, (extract_data parse text).getD (defaultData origin destination)
      = extractionSpec parse origin destination text := by
    intro text
    by_cases ht : text = ""
    · subst ht; rfl
    · have hb : (text == "") = false := beq_eq_false_iff_ne.mpr ht
      unfold extract_data extractionSpec
      rw [hb, if_neg ht]
      show (match parse text with
        | some .null => none
        | some j => some j
        | none =>
          if pyFind text lbrace ≠ -1 ∧ pyRfind text rbrace + 1 > pyFind text lbrace then
            match parse (pySlice text (pyFind text lbrace).toNat
                (pyRfind text rbrace + 1).toNat) with
            | some .null => none
            | r => r
          else none).getD (defaultData origin destination) = _
      cases hp : parse text with
      | some j => cases j <;> rfl
      | none =>
        cases hf : firstIdx? lbrace text.data with
        | none =>
          have hpf : pyFind text lbrace = -1 := by
            unfold pyFind; rw [hf]
          have hcond : ¬(pyFind text lbrace ≠ -1 ∧
              pyRfind text rbrace + 1 > pyFind text lbrace) := by
            rw [hpf]; simp
          rw [if_neg hcond]
          rfl
        | some s =>
          have hpf : pyFind text lbrace = (s : Int) := by
            unfold pyFind; rw [hf]
          cases hl : lastIdx? rbrace text.data with
          | none =>
            have hpr : pyRfind text rbrace = -1 := by
              unfold pyRfind; rw [hl]
            have hcond : ¬(pyFind text lbrace ≠ -1 ∧
                pyRfind text rbrace + 1 > pyFind text lbrace) := by
              rw [hpf, hpr]; omega
            rw [if_neg hcond]
            rfl
          | some e =>
            have hpr : pyRfind text rbrace = (e : Int) := by
              unfold pyRfind; rw [hl]
            dsimp only
            by_cases hse : s ≤ e
            · have hcond : pyFind text lbrace ≠ -1 ∧
                  pyRfind text rbrace + 1 > pyFind text lbrace := by
                rw [hpf, hpr]; omega
              rw [if_pos hcond, if_pos hse, hpf, hpr]
              have h1 : ((s : Int)).toNat = s := by omega
              have h2 : ((e : Int) + 1).toNat = e + 1 := by omega
              rw [h1, h2]
              cases hps : parse (pySlice text s (e + 1)) with
              | none => rfl
              | some j2 => cases j2 <;> rfl
            · have hcond : ¬(pyFind text lbrace ≠ -1 ∧
                  pyRfind text rbrace + 1 > pyFind text lbrace) := by
                rw [hpf, hpr]; omega
              rw [if_neg hcond, if_neg hse]
              rfl
  refine ⟨main, ?_⟩
  intro p m q j hjn hp hq hm1 hm2 hptext hpm
  have hp' : ∀ x ∈ p, x ≠ lbrace := by
    intro x hx
    simpa using List.all_eq_true.mp hp x hx
  have hq' : ∀ x ∈ q, x ≠ rbrace := by
    intro x hx
    simpa using List.all_eq_true.mp hq x hx
  have hmne : m ≠ [] := by
    intro he; rw [he] at hm1; exact Option.noConfusion hm1
  have hmlen : 0 < m.length := List.length_pos.mpr hmne
  have htne : String.mk (p ++ m ++ q) ≠ "" := by
    apply ne_empty_of_length_pos
    show 0 < (p ++ m ++ q).length
    rw [List.length_append, List.length_append]
    omega
  have hb : ((String.mk (p ++ m ++ q)) == "") = false := beq_eq_false_iff_ne.mpr htne
  have hm0 : firstIdx? lbrace m = some 0 := by
    cases hml : m with
    | nil => exact absurd hml hmne
    | cons x rest =>
      rw [hml] at hm1
      rw [List.head?_cons] at hm1
      have hx : x = lbrace := Option.some.inj hm1
      simp [firstIdx?, hx]
  have hpnone : firstIdx? lbrace p = none := firstIdx?_eq_none_iff.mpr hp'
  have hfirst : firstIdx? lbrace (p ++ m ++ q) = some p.length := by
    rw [List.append_assoc, firstIdx?_append_of_none (m ++ q) hpnone,
      firstIdx?_append_left q hm0]
    show some (p.length + 0) = some p.length
    rw [Nat.add_zero]
  have hlast : lastIdx? rbrace (p ++ m ++ q) = some (p.length + (m.length - 1)) :=
    lastIdx?_append_right q hq' (lastIdx?_append_left p (lastIdx?_of_getLast hm2))
  have hpf : pyFind (String.mk (p ++ m ++ q)) lbrace = (p.length : Int) := by
    unfold pyFind
    show (match firstIdx? lbrace (p ++ m ++ q) with
      | some i => (i : Int)
      | none => -1) = _
    rw [hfirst]
  have hpr : pyRfind (String.mk (p ++ m ++ q)) rbrace
      = ((p.length + (m.length - 1) : Nat) : Int) := by
    unfold pyRfind
    show (match lastIdx? rbrace (p ++ m ++ q) with
      | some i => (i : Int)
      | none => -1) = _
    rw [hlast]
  have hslice : pySlice (String.mk (p ++ m ++ q)) p.length
      (p.length + (m.length - 1) + 1) = String.mk m := by
    unfold pySlice
    apply congrArg
    show ((p ++ m ++ q).drop p.length).take (p.length + (m.length - 1) + 1 - p.length) = m
    have hnz : p.length + (m.length - 1) + 1 - p.length = m.length := by omega
    rw [hnz, List.append_assoc, List.drop_left, List.take_left]
  unfold extract_data
  rw [hb, hptext]
  show (if pyFind (String.mk (p ++ m ++ q)) lbrace ≠ -1 ∧
      pyRfind (String.mk (p ++ m ++ q)) rbrace + 1 > pyFind (String.mk (p ++ m ++ q)) lbrace
    then
      match parse (pySlice (String.mk (p ++ m ++ q))
          (pyFind (String.mk (p ++ m ++ q)) lbrace).toNat
          (pyRfind (String.mk (p ++ m ++ q)) rbrace + 1).toNat) with
      | some .null => none
      | r => r
    else none).getD (defaultData origin destination) = j
  have hcond : pyFind (String.mk (p ++ m ++ q)) lbrace ≠ -1 ∧
      pyRfind (String.mk (p ++ m ++ q)) rbrace + 1
        > pyFind (String.mk (p ++ m ++ q)) lbrace := by
    rw [hpf, hpr]; omega
  rw [if_pos hcond, hpf, hpr]
  have h1 : ((p.length : Int)).toNat = p.length := by omega
  have h2 : (((p.length + (m.length - 1) : Nat) : Int) + 1).toNat
      = p.length + (m.length - 1) + 1 := by omega
  rw [h1, h2, hslice, hpm]
  cases j with
  | null => simp [isNull] at hjn
  | bool b => rfl
  | num n => rfl
  | str s => rfl
  | arr l => rfl
  | obj l => rfl

/-- A concrete JSON oracle for the C3 witness: parses exactly the embedded
object text, as `json.loads` would, and fails on everything else. -/
def proseParse : String → Option Json :=
  fun s => if s = "\x7bT\x7d" then some (.num 3) else none

/-- Witness for C3: a parseable object surrounded by prose on both sides is
extracted by the brace heuristic and parsed, with every hypothesis of the
prose conjunct discharged at this concrete input. -/
theorem c3_normalization_extraction_witness :
    (isNull (Json.num 3) = false)
    ∧ (("Here: ".data).all (fun x => !(x == lbrace)) = true)
    ∧ ((" thanks".data).all (fun x => !(x == rbrace)) = true)
    ∧ ("\x7bT\x7d".data).head? = some lbrace
    ∧ ("\x7bT\x7d".data).getLast? = some rbrace
    ∧ proseParse (String.mk ("Here: ".data ++ "\x7bT\x7d".data ++ " thanks".data)) = none
    ∧ proseParse (String.mk "\x7bT\x7d".data) = some (Json.num 3)
    ∧ (extract_data proseParse
          (String.mk ("Here: ".data ++ "\x7bT\x7d".data ++ " thanks".data))).getD
        (defaultData "Paris" "Lyon") = Json.num 3 :=
  ⟨by decide, by decide, by decide, by decide, by decide, rfl, rfl,
    (c3_normalization_extraction proseParse "Paris" "Lyon").2
      "Here: ".data "\x7bT\x7d".data " thanks".data (Json.num 3)
      (by decide) (by decide) (by decide) (by decide) (by decide) rfl rfl⟩

/-! ### Dict-operation lemmas shared by the normalization claims -/

theorem dGet?_dSet_self (k : String) (v : Json) :
    ∀ d : JDict, dGet? k (dSet k v d) = some v := by
  intro d
  induction d with
  | nil => simp [dSet, dGet?]
  | cons kv rest ih =>
    obtain ⟨k1, v1⟩ := kv
    by_cases h : k1 = k
    · simp [dSet, dGet?, h]
    · simp [dSet, dGet?, h, ih]

theorem dGet?_dSet_ne {k k' : String} (h : k' ≠ k) (v : Json) :
    ∀ d : JDict, dGet? k (dSet k' v d) = dGet? k d := by
  intro d
  induction d with
  | nil => simp [dSet, dGet?, h]
  | cons kv rest ih =>
    obtain ⟨k1, v1⟩ := kv
    by_cases h1 : k1 = k'
    · subst h1
      simp [dSet, dGet?, h, ih]
    · by_cases h2 : k1 = k
      · simp [dSet, dGet?, h1, h2, Ne.symm h]
      · simp [dSet, dGet?, h1, h2, ih]

theorem dGet?_dDel_ne {k k' : String} (h : k' ≠ k) :
    ∀ d : JDict, dGet? k (dDel k' d) = dGet? k d := by
  intro d
  induction d with
  | nil => simp [dDel]
  | cons kv rest ih =>
    obtain ⟨k1, v1⟩ := kv
    by_cases h1 : k1 = k'
    · subst h1
      simp [dDel, dGet?, h]
    · by_cases h2 : k1 = k
      · simp [dDel, dGet?, h1, h2, Ne.symm h]
      · simp [dDel, dGet?, h1, h2, ih]

theorem dGet?_eq_none_of_not_mem {k : String} :
    ∀ {d : JDict}, k ∉ dKeys d → dGet? k d = none := by
  intro d
  induction d with
  | nil => intro _; rfl
  | cons kv rest ih =>
    obtain ⟨k1, v1⟩ := kv
    intro h
    have h1 : k1 ≠ k := by
      intro he
      exact h (by rw [he]; exact List.mem_cons_self k (dKeys rest))
    have h2 : k ∉ dKeys rest := fun hm => h (List.mem_cons_of_mem _ hm)
    simp [dGet?, h1, ih h2]

theorem dGet?_dDel_self {k : String} :
    ∀ {d : JDict}, (dKeys d).Nodup → dGet? k (dDel k d) = none := by
  intro d
  induction d with
  | nil => intro _; rfl
  | cons kv rest ih =>
    obtain ⟨k1, v1⟩ := kv
    intro hnd
    have hnd' := List.Nodup.of_cons hnd
    by_cases h1 : k1 = k
    · subst h1
      rw [show dDel k1 ((k1, v1) :: rest) = rest by simp [dDel]]
      have hk : k1 ∉ dKeys rest := (List.nodup_cons.mp hnd).1
      exact dGet?_eq_none_of_not_mem hk
    · rw [show dDel k ((k1, v1) :: rest) = (k1, v1) :: dDel k rest by simp [dDel, h1]]
      simp [dGet?, h1, ih hnd']

theorem mem_dKeys_dSet {k' k : String} {v : Json} :
    ∀ {d : JDict}, k' ∈ dKeys (dSet k v d) → k' ∈ dKeys d ∨ k' = k := by
  intro d
  induction d with
  | nil =>
    intro h
    simp [dSet, dKeys] at h
    exact Or.inr h
  | cons kv rest ih =>
    obtain ⟨k1, v1⟩ := kv
    intro h
    by_cases h1 : k1 = k
    · simp only [dSet, if_pos h1, dKeys, List.map_cons, List.mem_cons] at h
      rcases h with h | h
      · exact Or.inr h
      · exact Or.inl (List.mem_cons_of_mem _ h)
    · simp only [dSet, if_neg h1, dKeys, List.map_cons, List.mem_cons] at h
      rcases h with h | h
      · exact Or.inl (by simp [dKeys, h])
      · rcases ih h with h' | h'
        · exact Or.inl (List.mem_cons_of_mem _ h')
        · exact Or.inr h'

theorem nodup_dKeys_dSet (k : String) (v : Json) :
    ∀ {d : JDict}, (dKeys d).Nodup → (dKeys (dSet k v d)).Nodup := by
  intro d
  induction d with
  | nil => intro _; simp [dSet, dKeys]
  | cons kv rest ih =>
    obtain ⟨k1, v1⟩ := kv
    intro hnd
    rcases List.nodup_cons.mp hnd with ⟨hk1, hrest⟩
    by_cases h1 : k1 = k
    · subst h1
      simp only [dSet, if_pos rfl, dKeys, List.map_cons]
      exact List.nodup_cons.mpr ⟨hk1, hrest⟩
    · simp only [dSet, if_neg h1, dKeys, List.map_cons]
      refine List.nodup_cons.mpr ⟨?_, ih hrest⟩
      intro hmem
      rcases mem_dKeys_dSet hmem with h' | h'
      · exact hk1 h'
      · exact h1 h'

theorem dKeys_dDel_sublist (k : String) :
    ∀ d : JDict, (dKeys (dDel k d)).Sublist (dKeys d) := by
  intro d
  induction d with
  | nil => simp [dDel]
  | cons kv rest ih =>
    obtain ⟨k1, v1⟩ := kv
    by_cases h1 : k1 = k
    · simp only [dDel, if_pos h1, dKeys, List.map_cons]
      exact (List.sublist_cons_self _ _)
    · simp only [dDel, if_neg h1, dKeys, List.map_cons]
      exact ih.cons₂ k1

theorem nodup_dKeys_dDel (k : String) {d : JDict} (h : (dKeys d).Nodup) :
    (dKeys (dDel k d)).Nodup :=
  (dKeys_dDel_sublist k d).nodup h

theorem dPop_fst (k : String) (d : JDict) : (dPop k d).1 = dGet? k d := by
  unfold dPop
  cases dGet? k d <;> rfl

theorem dGet?_dPop_snd_ne {k k' : String} (h : k' ≠ k) (d : JDict) :
    dGet? k (dPop k' d).2 = dGet? k d := by
  unfold dPop
  cases dGet? k' d with
  | none => rfl
  | some v => exact dGet?_dDel_ne h d

theorem dGet?_dPop_snd_self {k : String} {d : JDict} (hnd : (dKeys d).Nodup) :
    dGet? k (dPop k d).2 = none := by
  unfold dPop
  cases h : dGet? k d with
  | none => exact h
  | some v => exact dGet?_dDel_self hnd

theorem nodup_dKeys_dPop_snd (k : String) {d : JDict} (h : (dKeys d).Nodup) :
    (dKeys (dPop k d).2).Nodup := by
  unfold dPop
  cases dGet? k d with
  | none => exact h
  | some v => exact nodup_dKeys_dDel k h

theorem dGet?_append (k : String) :
    ∀ d e : JDict, dGet? k (d ++ e) =
      (match dGet? k d with
       | some v => some v
       | none => dGet? k e) := by
  intro d e
  induction d with
  | nil => rfl
  | cons kv rest ih =>
    obtain ⟨k1, v1⟩ := kv
    by_cases h1 : k1 = k
    · simp [dGet?, h1]
    · simp [dGet?, h1, ih]

theorem dGet?_dSetdefault_present {k : String} {d : JDict} {v : Json}
    (h : dGet? k d = some v) (k' : String) (w : Json) :
    dGet? k (dSetdefault k' w d) = some v := by
  unfold dSetdefault
  by_cases hh : dHas k' d
  · rw [if_pos hh]; exact h
  · rw [if_neg hh, dGet?_append, h]

theorem dGet?_dSetdefault_missing {k : String} {d : JDict}
    (h : dGet? k d = none) (w : Json) :
    dGet? k (dSetdefault k w d) = some w := by
  unfold dSetdefault
  have hh : ¬dHas k d := by simp [dHas, h]
  rw [if_neg hh, dGet?_append, h]
  simp [dGet?]

theorem dGet?_dSetdefault_ne {k k' : String} (h : k' ≠ k) (d : JDict) (w : Json) :
    dGet? k (dSetdefault k' w d) = dGet? k d := by
  unfold dSetdefault
  by_cases hh : dHas k' d
  · rw [if_pos hh]
  · rw [if_neg hh, dGet?_append]
    cases hk : dGet? k d with
    | some v => rfl
    | none => simp [dGet?, h]

theorem rename_fields_spec (origin destination : String) (d : JDict)
    (hnd : (dKeys d).Nodup) :
    dGet? "origin_city" (rename_fields origin destination d)
        = some ((dGet? "origin" d).getD (.str origin))
    ∧ dGet? "destination_city" (rename_fields origin destination d)
        = some ((dGet? "destination" d).getD (.str destination))
    ∧ dGet? "origin" (rename_fields origin destination d) = none
    ∧ dGet? "destination" (rename_fields origin destination d) = none
    ∧ ∀ k, k ≠ "origin" → k ≠ "destination" → k ≠ "origin_city" →
        k ≠ "destination_city" →
        dGet? k (rename_fields origin destination d) = dGet? k d := by
  have hnd1 : (dKeys (dPop "origin" d).2).Nodup := nodup_dKeys_dPop_snd _ hnd
  have hnd2 : (dKeys (dSet "origin_city" ((dPop "origin" d).1.getD (.str origin))
      (dPop "origin" d).2)).Nodup := nodup_dKeys_dSet _ _ hnd1
  unfold rename_fields
  dsimp only
  refine ⟨?_, ?_, ?_, ?_, ?_⟩
  · rw [dGet?_dSet_ne (by decide), dGet?_dPop_snd_ne (by decide),
      dGet?_dSet_self, dPop_fst]
  · rw [dGet?_dSet_self, dPop_fst, dGet?_dSet_ne (by decide),
      dGet?_dPop_snd_ne (by decide)]
  · rw [dGet?_dSet_ne (by decide), dGet?_dPop_snd_ne (by decide),
      dGet?_dSet_ne (by decide), dGet?_dPop_snd_self hnd]
  · rw [dGet?_dSet_ne (by decide), dGet?_dPop_snd_self hnd2]
  · intro k h1 h2 h3 h4
    rw [dGet?_dSet_ne (fun he => h4 he.symm), dGet?_dPop_snd_ne (fun he => h2 he.symm),
      dGet?_dSet_ne (fun he => h3 he.symm), dGet?_dPop_snd_ne (fun he => h1 he.symm)]

def isArr : Json → Bool
  | .arr _ => true
  | _ => false

def isEmptyArr : Json → Bool
  | .arr l => l.isEmpty
  | _ => false

/-- C4: for every normalized travel-options dict whose `travel_options` value
is a mapping to option lists, the reshape step produces a `modes` list holding
exactly the modes with a non-empty option list (empty ones omitted), removes
the `travel_options` key, and renames `origin` to `origin_city` and
`destination` to `destination_city` (using the request value when the source
key is absent, and overwriting any existing target key). -/
theorem c4_reshape_and_rename (origin destination : String) (d : JDict)
    (tv : List (String × Json))
    (hnd : (dKeys d).Nodup)
    (htv : dGet? "travel_options" d = some (.obj tv))
    (harr : tv.all (fun kv => isArr kv.2) = true) :
    ∃ d', reshape_modes d = .ok d'
      ∧ dGet? "modes" (rename_fields origin destination d')
          = some (.arr ((tv.filter (fun kv => !(isEmptyArr kv.2))).map mkMode))
      ∧ dGet? "travel_options" (rename_fields origin destination d') = none
      ∧ dGet? "origin_city" (rename_fields origin destination d')
          = some ((dGet? "origin" d).getD (.str origin))
      ∧ dGet? "destination_city" (rename_fields origin destination d')
          = some ((dGet? "destination" d).getD (.str destination))
      ∧ dGet? "origin" (rename_fields origin destination d') = none
      ∧ dGet? "destination" (rename_fields origin destination d') = none := by
  have hhas : dHas "travel_options" d = true := by simp [dHas, htv]
  have hfeq : tv.filter (fun kv => kv.2.truthy)
      = tv.filter (fun kv => !(isEmptyArr kv.2)) := by
    apply List.filter_congr
    intro kv hkv
    have hkvarr := List.all_eq_true.mp harr kv hkv
    cases hv : kv.2 with
    | arr l => simp [Json.truthy, isEmptyArr]
    | null => rw [hv] at hkvarr; exact absurd hkvarr (by simp [isArr])
    | bool b => rw [hv] at hkvarr; exact absurd hkvarr (by simp [isArr])
    | num n => rw [hv] at hkvarr; exact absurd hkvarr (by simp [isArr])
    | str s => rw [hv] at hkvarr; exact absurd hkvarr (by simp [isArr])
    | obj l => rw [hv] at hkvarr; exact absurd hkvarr (by simp [isArr])
  set d' : JDict := dDel "travel_options"
    (dSet "modes" (.arr ((tv.filter (fun kv => kv.2.truthy)).map mkMode)) d) with hd'
  have hok : reshape_modes d = .ok d' := by
    unfold reshape_modes
    rw [if_pos hhas, htv]
  have hnds : (dKeys (dSet "modes"
      (.arr ((tv.filter (fun kv => kv.2.truthy)).map mkMode)) d)).Nodup :=
    nodup_dKeys_dSet _ _ hnd
  have hnd' : (dKeys d').Nodup := nodup_dKeys_dDel _ hnds
  obtain ⟨hoc, hdc, hor, hde, hfr⟩ := rename_fields_spec origin destination d' hnd'
  refine ⟨d', hok, ?_, ?_, ?_, ?_, hor, hde⟩
  · rw [hfr "modes" (by decide) (by decide) (by decide) (by decide), hd',
      dGet?_dDel_ne (by decide), dGet?_dSet_self, hfeq]
  · rw [hfr "travel_options" (by decide) (by decide) (by decide) (by decide), hd',
      dGet?_dDel_self hnds]
  · rw [hoc, hd', dGet?_dDel_ne (by decide), dGet?_dSet_ne (by decide)]
  · rw [hdc, hd', dGet?_dDel_ne (by decide), dGet?_dSet_ne (by decide)]

/-- The provider mapping of the specification's Paris/Lyon scenario: one train
option and an empty bus list. -/
def scenarioTv : List (String × Json) :=
  [("train", .arr [.obj [("route_name", .str "TGV")]]), ("bus", .arr [])]

/-- The parsed provider object of the Paris/Lyon scenario. -/
def scenarioDict : JDict := [("travel_options", .obj scenarioTv)]

/-- Witness for C4 at the specification's Paris/Lyon scenario: the reshape
keeps exactly the `train` mode, `bus` is absent, the mapping key is removed,
and the cities are renamed from the request. -/
theorem c4_reshape_and_rename_witness :
    ((dKeys scenarioDict).Nodup
      ∧ dGet? "travel_options" scenarioDict = some (.obj scenarioTv)
      ∧ scenarioTv.all (fun kv => isArr kv.2) = true)
    ∧ (∃ d', reshape_modes scenarioDict = .ok d'
        ∧ dGet? "modes" (rename_fields "Paris" "Lyon" d')
            = some (.arr [.obj [("mode", .str "train"),
                ("options", .arr [.obj [("route_name", .str "TGV")]])]])
        ∧ dGet? "travel_options" (rename_fields "Paris" "Lyon" d') = none
        ∧ dGet? "origin_city" (rename_fields "Paris" "Lyon" d') = some (.str "Paris")
        ∧ dGet? "destination_city" (rename_fields "Paris" "Lyon" d') = some (.str "Lyon")
        ∧ dGet? "origin" (rename_fields "Paris" "Lyon" d') = none
        ∧ dGet? "destination" (rename_fields "Paris" "Lyon" d') = none) :=
  ⟨⟨by decide, rfl, by decide⟩,
    c4_reshape_and_rename "Paris" "Lyon" scenarioDict scenarioTv (by decide) rfl (by decide)⟩

/-! ### Claim C8 -/

/-- C8: the `setdefault` backfill fills exactly the missing keys among
`origin`, `destination` and `travel_options` (with the request's cities and
the all-empty-modes default) and leaves every key that is present in the
parsed object — those three included — bound to its parsed value; keys other
than the three are never touched. -/
theorem c8_backfill_only_missing (origin destination : String) (d : JDict) :
    ∃ d', ensure_fields origin destination (.obj d) = .ok d'
      ∧ (∀ k v, dGet? k d = some v → dGet? k d' = some v)
      ∧ (dGet? "origin" d = none → dGet? "origin" d' = some (.str origin))
      ∧ (dGet? "destination" d = none →
          dGet? "destination" d' = some (.str destination))
      ∧ (dGet? "travel_options" d = none →
          dGet? "travel_options" d' = some defaultTravelOptions)
      ∧ (∀ k, k ≠ "origin" → k ≠ "destination" → k ≠ "travel_options" →
          dGet? k d' = dGet? k d) := by
  refine ⟨dSetdefault "travel_options" defaultTravelOptions
    (dSetdefault "destination" (.str destination)
      (dSetdefault "origin" (.str origin) d)), rfl, ?_, ?_, ?_, ?_, ?_⟩
  · intro k v h
    exact dGet?_dSetdefault_present
      (dGet?_dSetdefault_present (dGet?_dSetdefault_present h _ _) _ _) _ _
  · intro h
    exact dGet?_dSetdefault_present
      (dGet?_dSetdefault_present (dGet?_dSetdefault_missing h _) _ _) _ _
  · intro h
    have h1 : dGet? "destination" (dSetdefault "origin" (.str origin) d) = none := by
      rw [dGet?_dSetdefault_ne (by decide)]; exact h
    exact dGet?_dSetdefault_present (dGet?_dSetdefault_missing h1 _) _ _
  · intro h
    have h1 : dGet? "travel_options" (dSetdefault "destination" (.str destination)
        (dSetdefault "origin" (.str origin) d)) = none := by
      rw [dGet?_dSetdefault_ne (by decide), dGet?_dSetdefault_ne (by decide)]
      exact h
    exact dGet?_dSetdefault_missing h1 _
  · intro k h1 h2 h3
    rw [dGet?_dSetdefault_ne (fun he => h3 he.symm),
      dGet?_dSetdefault_ne (fun he => h2 he.symm),
      dGet?_dSetdefault_ne (fun he => h1 he.symm)]

/-- A parsed provider object for the C8 witness: `origin` present with a
parsed value, `destination` and `travel_options` missing, one unrelated key. -/
def backfillDict : JDict := [("origin", .str "Pune"), ("extra", .num 5)]

/-- Witness for C8: on the concrete object the present `origin` keeps its
parsed value, the missing `destination` and `travel_options` are filled from
the request and the default, and the unrelated key is untouched. -/
theorem c8_backfill_only_missing_witness :
    (dGet? "origin" backfillDict = some (.str "Pune")
      ∧ dGet? "destination" backfillDict = none
      ∧ dGet? "travel_options" backfillDict = none)
    ∧ (∃ d', ensure_fields "Mumbai" "Goa" (.obj backfillDict) = .ok d'
        ∧ dGet? "origin" d' = some (.str "Pune")
        ∧ dGet? "destination" d' = some (.str "Goa")
        ∧ dGet? "travel_options" d' = some defaultTravelOptions
        ∧ dGet? "extra" d' = some (.num 5)) := by
  obtain ⟨d', hok, hpres, _, hmd, hmt, hfr⟩ :=
    c8_backfill_only_missing "Mumbai" "Goa" backfillDict
  refine ⟨⟨rfl, rfl, rfl⟩, d', hok, hpres "origin" _ rfl, hmd rfl, hmt rfl, ?_⟩
  rw [hfr "extra" (by decide) (by decide) (by decide)]
  rfl

/-! ### Claim C9 -/

/-- C9: when the parsed provider object has no `travel_options` key, the flow
always ends with an empty `modes` list — even when the parsed object carried
its own `modes` key — because `setdefault` installs the all-empty default and
the reshape unconditionally overwrites `modes` with the reshape of that
default. -/
theorem c9_missing_mapping_forces_empty_modes (parse : String → Option Json)
    (origin destination text : String) (d : JDict)
    (hx : extract_data parse text = some (.obj d))
    (hmiss : dGet? "travel_options" d = none) :
    ∃ d', travel_options_data parse origin destination text = .ok d'
      ∧ dGet? "modes" d' = some (.arr []) := by
  set e : JDict := dSetdefault "travel_options" defaultTravelOptions
    (dSetdefault "destination" (.str destination)
      (dSetdefault "origin" (.str origin) d)) with he
  have h1 : dGet? "travel_options" (dSetdefault "destination" (.str destination)
      (dSetdefault "origin" (.str origin) d)) = none := by
    rw [dGet?_dSetdefault_ne (by decide), dGet?_dSetdefault_ne (by decide)]
    exact hmiss
  have h2 : dGet? "travel_options" e = some defaultTravelOptions :=
    dGet?_dSetdefault_missing h1 _
  have hhas : dHas "travel_options" e = true := by simp [dHas, h2]
  have hok : reshape_modes e = .ok (dDel "travel_options" (dSet "modes" (.arr []) e)) := by
    unfold reshape_modes
    rw [if_pos hhas, h2]
    rfl
  have hsteps : travel_options_data parse origin destination text
      = (reshape_modes e).bind
          (fun d2 => .ok (rename_fields origin destination d2)) := by
    unfold travel_options_data
    rw [hx]
    rfl
  refine ⟨rename_fields origin destination
    (dDel "travel_options" (dSet "modes" (.arr []) e)), ?_, ?_⟩
  · rw [hsteps, hok]
    rfl
  · unfold rename_fields
    dsimp only
    rw [dGet?_dSet_ne (by decide), dGet?_dPop_snd_ne (by decide),
      dGet?_dSet_ne (by decide), dGet?_dPop_snd_ne (by decide),
      dGet?_dDel_ne (by decide), dGet?_dSet_self]

/-- A JSON oracle for the C9 witness: the provider text parses to an object
that already carries a `modes` key but no `travel_options` key. -/
def staleModesParse : String → Option Json :=
  fun t => if t = "x" then some (.obj [("modes", .arr [.str "stale"])]) else none

/-- Witness for C9: even though the parsed object carries `modes`, the final
dict's `modes` entry is the empty list. -/
theorem c9_missing_mapping_forces_empty_modes_witness :
    (extract_data staleModesParse "x" = some (.obj [("modes", .arr [.str "stale"])])
      ∧ dGet? "travel_options" [("modes", Json.arr [.str "stale"])] = none)
    ∧ (∃ d', travel_options_data staleModesParse "Pune" "Goa" "x" = .ok d'
        ∧ dGet? "modes" d' = some (.arr [])) :=
  ⟨⟨rfl, rfl⟩,
    c9_missing_mapping_forces_empty_modes staleModesParse "Pune" "Goa" "x"
      [("modes", .arr [.str "stale"])] rfl rfl⟩

/-! ### Claim C7 -/

/-- A JSON oracle behaving as `json.loads` does on the text `[1]`: valid JSON
whose top-level value is a list, i.e. schema-mismatched provider output. -/
def topLevelListParse : String → Option Json :=
  fun t => if t = "[1]" then some (.arr [.num 1]) else none

/-- Counterexample to C7 as stated: the provider text `[1]` is malformed
output in the claim's sense (valid JSON, schema mismatch), yet the flow does
not absorb it — `data.setdefault` raises `AttributeError` on the parsed list
and the endpoint surfaces the generic error instead of a schema-valid
response. -/
theorem c7_counterexample :
    travel_options topLevelListParse "Paris" "Lyon" "[1]" = .error () := rfl

/-- C7 amended: for every provider text that is empty or fails to parse as
JSON both directly and through the brace-extraction heuristic, the
malformation is absorbed and the flow returns the schema-valid default-based
response (request cities, empty modes).  Parsed output whose top-level value
is not a JSON object can instead surface as a generic error. -/
theorem c7_unparsable_text_absorbed (parse : String → Option Json)
    (origin destination text : String)
    (hx : extract_data parse text = none) :
    travel_options parse origin destination text
      = .ok ⟨origin, destination, []⟩ := by
  unfold travel_options travel_options_data
  rw [hx]
  rfl

/-- Witness for C7's amended theorem: a never-parsing oracle and prose text
produce the default-based schema-valid response. -/
theorem c7_unparsable_text_absorbed_witness :
    (extract_data (fun _ => (none : Option Json)) "no json here" = none)
    ∧ travel_options (fun _ => (none : Option Json)) "Paris" "Lyon" "no json here"
        = .ok ⟨"Paris", "Lyon", []⟩ :=
  ⟨rfl, c7_unparsable_text_absorbed (fun _ => none) "Paris" "Lyon" "no json here" rfl⟩

/-! ### Claim C6 -/

/-- C6: for every itinerary request, when the text provider times out the
endpoint returns the `ItineraryResponse` built from the caller-supplied
fallback unchanged: empty `days`, empty `overall_tips`, and the request's
home city, destination city and day count echoed back. -/
theorem c6_itinerary_timeout_echoes_request (parse : String → Option Json)
    (env : ImgEnv) (staticRoot : String) (p : ItineraryRequest) :
    generate_itinerary parse .timeout env staticRoot p
      = .ok ⟨p.home_city, p.destination_city, p.num_days, [], []⟩ := rfl

/-! ### Claims C5 and C10: the image fan-out stage of the itinerary flow -/

/-- Key lookup on a JSON value that is an object. -/
def jGet? (k : String) : Json → Option Json
  | .obj d => dGet? k d
  | _ => none

/-- The `days` list of an itinerary JSON value (empty when absent). -/
def daysList : Json → List Json
  | .obj d =>
    match dGet? "days" d with
    | some (.arr l) => l
    | _ => []
  | _ => []

/-- The `entities` list of a day JSON value (empty when absent). -/
def entitiesList : Json → List Json
  | .obj d =>
    match dGet? "entities" d with
    | some (.arr l) => l
    | _ => []
  | _ => []

/-- The length of an entity's `photo_prompts` list (0 when absent). -/
def entityPromptCount : Json → Nat
  | .obj e =>
    match dGet? "photo_prompts" e with
    | some (.arr l) => l.length
    | _ => 0
  | _ => 0

/-- How the image stage transforms one entity: only `image_urls` is written,
with at most `min 2 (prompt count)` URLs, the empty list for a promptless
entity, and every URL under the static-serving prefix. -/
def entityRel (ej ej' : Json) : Prop :=
  ∃ e urls, ej = .obj e
    ∧ ej' = .obj (dSet "image_urls" (.arr (urls.map .str)) e)
    ∧ urls.length ≤ min 2 (entityPromptCount ej)
    ∧ (entityPromptCount ej = 0 → urls = [])
    ∧ ∀ u ∈ urls, ∃ rest, u = "/static/" ++ rest

/-- How the image stage transforms one day: `entities` entries are rewritten
pointwise by `entityRel`, everything else untouched. -/
def dayRel (dj dj' : Json) : Prop :=
  (∀ k, k ≠ "entities" → jGet? k dj' = jGet? k dj)
  ∧ List.Forall₂ entityRel (entitiesList dj) (entitiesList dj')

theorem mapO_length {α β : Type} {f : α → Option β} :
    ∀ {l : List α} {l' : List β}, mapO f l = some l' → l'.length = l.length := by
  intro l
  induction l with
  | nil => intro l' h; cases h; rfl
  | cons a rest ih =>
    intro l' h
    unfold mapO at h
    cases hf : f a with
    | none => rw [hf] at h; exact Option.noConfusion h
    | some b =>
      rw [hf] at h
      cases hr : mapO f rest with
      | none => rw [hr] at h; exact Option.noConfusion h
      | some bs =>
        rw [hr] at h
        cases h
        simp [ih hr]

theorem mapO_vStr_all_str :
    ∀ {l : List Json}, l.all isStr = true → ∃ ss, mapO vStr l = some ss := by
  intro l
  induction l with
  | nil => intro _; exact ⟨[], rfl⟩
  | cons a rest ih =>
    intro h
    rw [List.all_cons, Bool.and_eq_true] at h
    rcases h with ⟨ha, hrest⟩
    obtain ⟨ss, hss⟩ := ih hrest
    cases a with
    | str s => exact ⟨s :: ss, by simp [mapO, vStr, hss]⟩
    | null => exact absurd ha (by simp [isStr])
    | bool b => exact absurd ha (by simp [isStr])
    | num n => exact absurd ha (by simp [isStr])
    | arr l2 => exact absurd ha (by simp [isStr])
    | obj l2 => exact absurd ha (by simp [isStr])

theorem image_files_length_le (env : ImgEnv) (prompts : List String)
    (outputDir baseFileName : String) :
    (async_generate_image_files env prompts outputDir baseFileName).length
      ≤ prompts.length := by
  unfold async_generate_image_files
  dsimp only
  rw [List.filterMap_map, Function.id_comp, gathered_filter_eq_successfulPaths]
  calc (successfulPaths env outputDir baseFileName prompts.enum).length
      ≤ prompts.enum.length := successfulPaths_length_le env outputDir baseFileName _
    _ = prompts.length := List.enum_length

theorem mapE_forall₂ {α β : Type} {f : α → Except Unit β} {R : α → β → Prop} :
    ∀ {l : List α} {l' : List β}, mapE f l = .ok l' →
      (∀ x ∈ l, ∀ y, f x = .ok y → R x y) → List.Forall₂ R l l' := by
  intro l
  induction l with
  | nil => intro l' h _; cases h; exact List.Forall₂.nil
  | cons a rest ih =>
    intro l' h hR
    unfold mapE at h
    cases hf : f a with
    | error e => rw [hf] at h; exact Except.noConfusion h
    | ok b =>
      rw [hf] at h
      cases hr : mapE f rest with
      | error e => rw [hr] at h; exact Except.noConfusion h
      | ok bs =>
        rw [hr] at h
        cases h
        exact List.Forall₂.cons (hR a (List.mem_cons_self a rest) b hf)
          (ih hr fun x hx => hR x (List.mem_cons_of_mem a hx))

theorem mapE_ok_of_forall {α β : Type} {f : α → Except Unit β} :
    ∀ {l : List α}, (∀ x ∈ l, ∃ y, f x = .ok y) →
      ∃ l', mapE f l = .ok l' := by
  intro l
  induction l with
  | nil => intro _; exact ⟨[], rfl⟩
  | cons a rest ih =>
    intro h
    obtain ⟨b, hb⟩ := h a (List.mem_cons_self a rest)
    obtain ⟨bs, hbs⟩ := ih fun x hx => h x (List.mem_cons_of_mem a hx)
    exact ⟨b :: bs, by unfold mapE; rw [hb, hbs]⟩

theorem forall₂_mem_right {α β : Type} {R : α → β → Prop} :
    ∀ {l : List α} {l' : List β}, List.Forall₂ R l l' →
      ∀ y ∈ l', ∃ x ∈ l, R x y := by
  intro l l' h
  induction h with
  | nil => intro y hy; exact absurd hy (List.not_mem_nil y)
  | cons hab hrest ih =>
    intro y hy
    rcases List.mem_cons.mp hy with rfl | hy'
    · exact ⟨_, List.mem_cons_self _ _, hab⟩
    · obtain ⟨x, hx, hR⟩ := ih y hy'
      exact ⟨x, List.mem_cons_of_mem _ hx, hR⟩

theorem entity_stage_result (env : ImgEnv) (staticRoot outputDir : String)
    (e : JDict) (hwf : wfEntityJson (.obj e) = true) :
    ∃ urls : List String,
      entityImageStage env staticRoot outputDir (.obj e)
        = .ok (.obj (dSet "image_urls" (.arr (urls.map .str)) e))
      ∧ urls.length ≤ min 2 (entityPromptCount (.obj e))
      ∧ (entityPromptCount (.obj e) = 0 → urls = [])
      ∧ ∀ u ∈ urls, ∃ rest, u = "/static/" ++ rest := by
  unfold wfEntityJson at hwf
  rw [Bool.and_eq_true] at hwf
  rcases hwf with ⟨hpp, hname⟩
  cases hv : dGet? "photo_prompts" e with
  | none =>
    refine ⟨[], ?_, by simp, fun _ => rfl, by simp⟩
    unfold entityImageStage
    dsimp only
    rw [hv]
    rfl
  | some v =>
    rw [hv] at hpp
    cases v with
    | null => simp at hpp
    | bool b => simp at hpp
    | num n => simp at hpp
    | str s => simp at hpp
    | obj l2 => simp at hpp
    | arr l =>
      have hcount : entityPromptCount (.obj e) = l.length := by
        unfold entityPromptCount
        dsimp only
        rw [hv]
      cases hl : l with
      | nil =>
        subst hl
        refine ⟨[], ?_, by simp, fun _ => rfl, by simp⟩
        unfold entityImageStage
        dsimp only
        rw [hv]
        rfl
      | cons x xs =>
        subst hl
        have hall : ((x :: xs).take 2).all isStr = true := by
          rw [List.all_eq_true] at hpp ⊢
          intro y hy
          exact hpp y (List.take_subset 2 _ hy)
        obtain ⟨ss, hss⟩ := mapO_vStr_all_str hall
        have hsslen : ss.length = ((x :: xs).take 2).length := mapO_length hss
        have hstep : entityImageStage env staticRoot outputDir (.obj e)
            = (match mapO vStr ((x :: xs).take 2) with
              | none => .error ()
              | some prompts =>
                match (dGet? "name" e).getD (.str "entity") with
                | .str name =>
                  .ok (.obj (dSet "image_urls"
                    (.arr (((async_generate_image_files env prompts outputDir
                        (slug name)).map
                      (fun fp => "/static" ++ "/" ++ relpathUnder staticRoot fp)).map
                        .str)) e))
                | _ => .error ()) := by
          unfold entityImageStage
          dsimp only
          rw [hv]
          rfl
        rw [hss] at hstep
        have hlen : ∀ nm : String,
            ((async_generate_image_files env ss outputDir (slug nm)).map
              (fun fp => "/static" ++ "/" ++ relpathUnder staticRoot fp)).length
            ≤ min 2 (entityPromptCount (.obj e)) := by
          intro nm
          rw [List.length_map, hcount]
          calc (async_generate_image_files env ss outputDir (slug nm)).length
              ≤ ss.length := image_files_length_le env ss outputDir (slug nm)
            _ = ((x :: xs).take 2).length := hsslen
            _ = min 2 (x :: xs).length := List.length_take 2 _
        have hzero : entityPromptCount (.obj e) = 0 → False := by
          intro h0
          rw [hcount] at h0
          simp at h0
        have hpre : ∀ nm : String,
            ∀ u ∈ (async_generate_image_files env ss outputDir (slug nm)).map
              (fun fp => "/static" ++ "/" ++ relpathUnder staticRoot fp),
              ∃ rest, u = "/static/" ++ rest := by
          intro nm u hu
          rw [List.mem_map] at hu
          obtain ⟨fp, _, rfl⟩ := hu
          exact ⟨relpathUnder staticRoot fp, rfl⟩
        cases hn : dGet? "name" e with
        | none =>
          rw [hn] at hstep
          exact ⟨_, hstep, hlen "entity", fun h0 => absurd h0 hzero,
            hpre "entity"⟩
        | some nv =>
          rw [hn] at hname
          cases nv with
          | str nm =>
            rw [hn] at hstep
            exact ⟨_, hstep, hlen nm, fun h0 => absurd h0 hzero, hpre nm⟩
          | null => simp at hname
          | bool b => simp at hname
          | num n2 => simp at hname
          | arr l2 => simp at hname
          | obj l2 => simp at hname

theorem day_stage_result (env : ImgEnv) (staticRoot outputDir : String)
    (dj : Json) (hwf : wfDayJson dj = true) :
    ∃ dj', dayImageStage env staticRoot outputDir dj = .ok dj' ∧ dayRel dj dj' := by
  cases dj with
  | null => simp [wfDayJson] at hwf
  | bool b => simp [wfDayJson] at hwf
  | num n => simp [wfDayJson] at hwf
  | str s => simp [wfDayJson] at hwf
  | arr l => simp [wfDayJson] at hwf
  | obj d =>
    unfold wfDayJson at hwf
    dsimp only at hwf
    cases hv : dGet? "entities" d with
    | none =>
      refine ⟨.obj d, ?_, fun k hk => rfl, ?_⟩
      · unfold dayImageStage
        dsimp only
        rw [hv]
      · show List.Forall₂ entityRel (entitiesList (.obj d)) (entitiesList (.obj d))
        unfold entitiesList
        dsimp only
        rw [hv]
        exact List.Forall₂.nil
    | some v =>
      rw [hv] at hwf
      cases v with
      | null => simp at hwf
      | bool b => simp at hwf
      | num n => simp at hwf
      | str s => simp at hwf
      | obj l2 => simp at hwf
      | arr es =>
        have hex : ∀ x ∈ es, ∃ y,
            entityImageStage env staticRoot outputDir x = .ok y := by
          intro x hx
          have hwx := List.all_eq_true.mp (by simpa using hwf) x hx
          cases x with
          | obj ex =>
            obtain ⟨urls, hok, _, _, _⟩ :=
              entity_stage_result env staticRoot outputDir ex hwx
            exact ⟨_, hok⟩
          | null => simp [wfEntityJson] at hwx
          | bool b => simp [wfEntityJson] at hwx
          | num n => simp [wfEntityJson] at hwx
          | str s => simp [wfEntityJson] at hwx
          | arr l2 => simp [wfEntityJson] at hwx
        obtain ⟨es', hes⟩ := mapE_ok_of_forall hex
        refine ⟨.obj (dSet "entities" (.arr es') d), ?_, ?_, ?_⟩
        · unfold dayImageStage
          dsimp only
          rw [hv]
          dsimp only
          rw [hes]
          rfl
        · intro k hk
          show jGet? k (.obj (dSet "entities" (.arr es') d)) = jGet? k (.obj d)
          unfold jGet?
          dsimp only
          exact dGet?_dSet_ne (fun he => hk he.symm) _ d
        · have h1 : entitiesList (.obj d) = es := by
            unfold entitiesList
            dsimp only
            rw [hv]
          have h2 : entitiesList (.obj (dSet "entities" (.arr es') d)) = es' := by
            unfold entitiesList
            dsimp only
            rw [dGet?_dSet_self]
          show List.Forall₂ entityRel (entitiesList (.obj d))
            (entitiesList (.obj (dSet "entities" (.arr es') d)))
          rw [h1, h2]
          apply mapE_forall₂ hes
          intro x hx y hxy
          have hwx := List.all_eq_true.mp (by simpa using hwf) x hx
          cases x with
          | obj ex =>
            obtain ⟨urls, hok, hle, hz, hpre⟩ :=
              entity_stage_result env staticRoot outputDir ex hwx
            have hy : y = .obj (dSet "image_urls" (.arr (urls.map .str)) ex) := by
              have := hok.symm.trans hxy
              exact (Except.ok.inj this).symm
            exact ⟨ex, urls, rfl, hy, hle, hz, hpre⟩
          | null => simp [wfEntityJson] at hwx
          | bool b => simp [wfEntityJson] at hwx
          | num n => simp [wfEntityJson] at hwx
          | str s => simp [wfEntityJson] at hwx
          | arr l2 => simp [wfEntityJson] at hwx

theorem attach_images_result (env : ImgEnv) (staticRoot destSlug : String)
    (data : Json) (hwf : wfItineraryJson data = true) :
    ∃ data', attachImages env staticRoot destSlug data = .ok data'
      ∧ (∀ k, k ≠ "days" → jGet? k data' = jGet? k data)
      ∧ List.Forall₂ dayRel (daysList data) (daysList data') := by
  cases data with
  | null => simp [wfItineraryJson] at hwf
  | bool b => simp [wfItineraryJson] at hwf
  | num n => simp [wfItineraryJson] at hwf
  | str s => simp [wfItineraryJson] at hwf
  | arr l => simp [wfItineraryJson] at hwf
  | obj d =>
    unfold wfItineraryJson at hwf
    dsimp only at hwf
    cases hv : dGet? "days" d with
    | none =>
      refine ⟨.obj d, ?_, fun k hk => rfl, ?_⟩
      · unfold attachImages
        dsimp only
        rw [hv]
      · show List.Forall₂ dayRel (daysList (.obj d)) (daysList (.obj d))
        unfold daysList
        dsimp only
        rw [hv]
        exact List.Forall₂.nil
    | some v =>
      rw [hv] at hwf
      cases v with
      | null => simp at hwf
      | bool b => simp at hwf
      | num n => simp at hwf
      | str s => simp at hwf
      | obj l2 => simp at hwf
      | arr ds =>
        have hex : ∀ x ∈ ds, ∃ y, dayImageStage env staticRoot
            (pyJoin staticRoot ("itineraries/" ++ destSlug)) x = .ok y := by
          intro x hx
          have hwx := List.all_eq_true.mp (by simpa using hwf) x hx
          obtain ⟨dj', hok, _⟩ := day_stage_result env staticRoot
            (pyJoin staticRoot ("itineraries/" ++ destSlug)) x hwx
          exact ⟨dj', hok⟩
        obtain ⟨ds', hds⟩ := mapE_ok_of_forall hex
        refine ⟨.obj (dSet "days" (.arr ds') d), ?_, ?_, ?_⟩
        · unfold attachImages
          dsimp only
          rw [hv]
          dsimp only
          rw [hds]
          rfl
        · intro k hk
          show jGet? k (.obj (dSet "days" (.arr ds') d)) = jGet? k (.obj d)
          unfold jGet?
          dsimp only
          exact dGet?_dSet_ne (fun he => hk he.symm) _ d
        · have h1 : daysList (.obj d) = ds := by
            unfold daysList
            dsimp only
            rw [hv]
          have h2 : daysList (.obj (dSet "days" (.arr ds') d)) = ds' := by
            unfold daysList
            dsimp only
            rw [dGet?_dSet_self]
          show List.Forall₂ dayRel (daysList (.obj d))
            (daysList (.obj (dSet "days" (.arr ds') d)))
          rw [h1, h2]
          apply mapE_forall₂ hds
          intro x hx y hxy
          have hwx := List.all_eq_true.mp (by simpa using hwf) x hx
          obtain ⟨dj', hok, hrel⟩ := day_stage_result env staticRoot
            (pyJoin staticRoot ("itineraries/" ++ destSlug)) x hwx
          have hy : y = dj' := by
            have := hok.symm.trans hxy
            exact (Except.ok.inj this).symm
          rw [hy]
          exact hrel

/-- C5: for well-formed provider data, the image stage succeeds and every
entity of every returned day carries an `image_urls` list of string URLs
whose length is at most 2 and at most the entity's prompt count (the
consumed prompts are the first two), which is empty when the prompt list is
empty, and each of whose URLs begins with the static-serving prefix;
moreover an entity with no prompts gets `image_urls = []` by a branch that
never consults the image-generation environment. -/
theorem c5_image_urls_bounded_and_prefixed (env : ImgEnv)
    (staticRoot destSlug : String) (data : Json)
    (hwf : wfItineraryJson data = true) :
    ∃ data', attachImages env staticRoot destSlug data = .ok data'
      ∧ (∀ dj' ∈ daysList data', ∀ ej' ∈ entitiesList dj',
          ∃ urls : List String,
            jGet? "image_urls" ej' = some (.arr (urls.map .str))
            ∧ urls.length ≤ 2
            ∧ urls.length ≤ entityPromptCount ej'
            ∧ (entityPromptCount ej' = 0 → urls = [])
            ∧ ∀ u ∈ urls, ∃ rest, u = "/static/" ++ rest)
      ∧ (∀ e : JDict, wfEntityJson (.obj e) = true →
          entityPromptCount (.obj e) = 0 →
          ∀ (env' : ImgEnv) (outputDir : String),
            entityImageStage env' staticRoot outputDir (.obj e)
              = .ok (.obj (dSet "image_urls" (.arr []) e))) := by
  obtain ⟨data', hok, _, hdays⟩ :=
    attach_images_result env staticRoot destSlug data hwf
  refine ⟨data', hok, ?_, ?_⟩
  · intro dj' hdj' ej' hej'
    obtain ⟨dj, _, hdrel⟩ := forall₂_mem_right hdays dj' hdj'
    obtain ⟨ej, _, herel⟩ := forall₂_mem_right hdrel.2 ej' hej'
    obtain ⟨e, urls, hej_eq, hej'_eq, hle, hz, hpre⟩ := herel
    have hcount : entityPromptCount ej' = entityPromptCount ej := by
      rw [hej'_eq, hej_eq]
      unfold entityPromptCount
      dsimp only
      rw [dGet?_dSet_ne (by decide)]
    refine ⟨urls, ?_, ?_, ?_, ?_, hpre⟩
    · rw [hej'_eq]
      unfold jGet?
      dsimp only
      exact dGet?_dSet_self _ _ e
    · exact le_trans hle (Nat.min_le_left 2 _)
    · rw [hcount, hej_eq] at *
      exact le_trans hle (Nat.min_le_right _ _)
    · intro h0
      exact hz (hcount ▸ h0)
  · intro e hwfx h0 env' outputDir
    unfold wfEntityJson at hwfx
    rw [Bool.and_eq_true] at hwfx
    rcases hwfx with ⟨hpp, _⟩
    unfold entityPromptCount at h0
    dsimp only at h0
    cases hv : dGet? "photo_prompts" e with
    | none =>
      unfold entityImageStage
      dsimp only
      rw [hv]
      rfl
    | some v =>
      rw [hv] at hpp h0
      cases v with
      | null => simp at hpp
      | bool b => simp at hpp
      | num n => simp at hpp
      | str s => simp at hpp
      | obj l2 => simp at hpp
      | arr l =>
        have hl : l = [] := by
          cases l with
          | nil => rfl
          | cons a as => simp at h0
        subst hl
        unfold entityImageStage
        dsimp only
        rw [hv]
        rfl

/-- C10: for well-formed provider data, the image stage adds or overwrites
only each entity's `image_urls` key; every other entity key, every day key
other than the rewritten `entities` list, and every top-level key other than
the rewritten `days` list are looked up unchanged, with day and entity order
preserved pointwise. -/
theorem c10_image_stage_touches_only_image_urls (env : ImgEnv)
    (staticRoot destSlug : String) (data : Json)
    (hwf : wfItineraryJson data = true) :
    ∃ data', attachImages env staticRoot destSlug data = .ok data'
      ∧ (∀ k, k ≠ "days" → jGet? k data' = jGet? k data)
      ∧ List.Forall₂ (fun dj dj' =>
          (∀ k, k ≠ "entities" → jGet? k dj' = jGet? k dj)
          ∧ List.Forall₂ (fun ej ej' =>
              ∀ k, k ≠ "image_urls" → jGet? k ej' = jGet? k ej)
            (entitiesList dj) (entitiesList dj'))
        (daysList data) (daysList data') := by
  obtain ⟨data', hok, hframe, hdays⟩ :=
    attach_images_result env staticRoot destSlug data hwf
  refine ⟨data', hok, hframe, ?_⟩
  refine List.Forall₂.imp ?_ hdays
  intro dj dj' hrel
  refine ⟨hrel.1, ?_⟩
  refine List.Forall₂.imp ?_ hrel.2
  intro ej ej' herel k hk
  obtain ⟨e, urls, he, he', _, _, _⟩ := herel
  rw [he, he']
  unfold jGet?
  dsimp only
  exact dGet?_dSet_ne (fun x => hk x.symm) _ e

/-- A concrete well-formed provider itinerary: one day, one entity with three
photo prompts (only the first two will be consumed). -/
def sampleItinerary : Json :=
  .obj [("home_city", .str "Boston"), ("destination_city", .str "Kyoto"),
    ("num_days", .num 1),
    ("days", .arr [.obj [("day", .num 1), ("summary", .str "temples"),
      ("entities", .arr [.obj [("name", .str "Fushimi Inari"),
        ("speciality", .str "shrine"),
        ("photo_prompts", .arr [.str "p1", .str "p2", .str "p3"])]])]])]

/-- An image environment whose provider always returns one PNG payload. -/
def okImgEnv : ImgEnv :=
  ⟨fun _ => .ok [.withData (some "image/png")], fun _ => some ".png"⟩

/-- Witness for C5 at the concrete itinerary and always-succeeding image
environment. -/
theorem c5_image_urls_bounded_and_prefixed_witness :
    (wfItineraryJson sampleItinerary = true)
    ∧ (∃ data', attachImages okImgEnv "static" "kyoto" sampleItinerary = .ok data'
        ∧ (∀ dj' ∈ daysList data', ∀ ej' ∈ entitiesList dj',
            ∃ urls : List String,
              jGet? "image_urls" ej' = some (.arr (urls.map .str))
              ∧ urls.length ≤ 2
              ∧ urls.length ≤ entityPromptCount ej'
              ∧ (entityPromptCount ej' = 0 → urls = [])
              ∧ ∀ u ∈ urls, ∃ rest, u = "/static/" ++ rest)
        ∧ (∀ e : JDict, wfEntityJson (.obj e) = true →
            entityPromptCount (.obj e) = 0 →
            ∀ (env' : ImgEnv) (outputDir : String),
              entityImageStage env' "static" outputDir (.obj e)
                = .ok (.obj (dSet "image_urls" (.arr []) e)))) :=
  ⟨by decide, c5_image_urls_bounded_and_prefixed okImgEnv "static" "kyoto"
    sampleItinerary (by decide)⟩

/-- Witness for C10 at the same concrete itinerary data: the image stage
rewrites only `image_urls`. -/
theorem c10_image_stage_touches_only_image_urls_witness :
    (wfItineraryJson sampleItinerary = true)
    ∧ (∃ data', attachImages okImgEnv "static" "kyoto" sampleItinerary = .ok data'
        ∧ (∀ k, k ≠ "days" → jGet? k data' = jGet? k sampleItinerary)
        ∧ List.Forall₂ (fun dj dj' =>
            (∀ k, k ≠ "entities" → jGet? k dj' = jGet? k dj)
            ∧ List.Forall₂ (fun ej ej' =>
                ∀ k, k ≠ "image_urls" → jGet? k ej' = jGet? k ej)
              (entitiesList dj) (entitiesList dj'))
          (daysList sampleItinerary) (daysList data')) :=
  ⟨by decide, c10_image_stage_touches_only_image_urls okImgEnv "static" "kyoto"
    sampleItinerary (by decide)⟩

end Travel
